import Mathlib

/-!
Verification of the snaptour repository's audio pipeline.

Shallow embedding of:
 * `src/services/audioUtils.ts` (`decodeAudioData`),
 * `src/services/storageService.ts` (`saveHistoryItem`),
 * `src/services/geminiService.ts` (`generateNarrationAudio`,
   `identifyLandmarkFromImage`, `getLandmarkDetails`),
 * the segmented playback controller of `src/components/TourCard.tsx`,
 * the Segment Splitter (`splitTextForTTS`), whose definition is absent from
   the sources and is therefore modelled from the specification.
-/

namespace SnapTour

/-! ## Audio decoding — `src/services/audioUtils.ts`, `decodeAudioData`

Bytes are modelled as `Fin 256`.  JavaScript `new Int16Array(data.buffer)`
reinterprets consecutive byte pairs as little-endian signed 16-bit integers
(it throws on odd byte length; the embedding, like the claims, is used on
even-length inputs, and simply ignores a trailing odd byte).  The divisions
`int16 / 32768.0` are exact in IEEE-754 doubles (numerator an integer of
magnitude < 2^16, denominator a power of two), so modelling samples as
rationals is faithful. -/

/-- The signed 16-bit integer formed by a little-endian byte pair. -/
def int16LE (lo hi : Fin 256) : Int :=
  if lo.val + 256 * hi.val < 32768 then ((lo.val + 256 * hi.val : Nat) : Int)
  else ((lo.val + 256 * hi.val : Nat) : Int) - 65536

/-- Reinterpret a byte sequence as little-endian 16-bit integers
(`new Int16Array(data.buffer)`). -/
def bytesToInt16 : List (Fin 256) → List Int
  | [] => []
  | [_] => []
  | lo :: hi :: rest => int16LE lo hi :: bytesToInt16 rest

/-- Embedding of `decodeAudioData` from `src/services/audioUtils.ts` (lines 13-30):
`frameCount = dataInt16.length / numChannels`, and
`channelData[i] = dataInt16[i * numChannels + channel] / 32768.0`.
The result lists the channel-data arrays of the created buffer. -/
def decodeAudioData (data : List (Fin 256)) (numChannels : Nat) : List (List Rat) :=
  let dataInt16 := bytesToInt16 data
  let frameCount := dataInt16.length / numChannels
  (List.range numChannels).map (fun channel =>
    (List.range frameCount).map (fun i =>
      ((dataInt16.getD (i * numChannels + channel) 0 : Int) : Rat) / 32768))

theorem bytesToInt16_length (data : List (Fin 256)) :
    (bytesToInt16 data).length = data.length / 2 := by
  match data with
  | [] => rfl
  | [a] => simp [bytesToInt16]
  | lo :: hi :: rest =>
    simp only [bytesToInt16, List.length_cons]
    rw [bytesToInt16_length rest]
    omega

theorem bytesToInt16_getD (data : List (Fin 256)) (i : Nat)
    (h : i < data.length / 2) :
    (bytesToInt16 data).getD i 0 =
      int16LE (data.getD (2 * i) 0) (data.getD (2 * i + 1) 0) := by
  match data, i with
  | [], i => simp at h
  | [a], i => simp only [List.length_singleton] at h; omega
  | lo :: hi :: rest, 0 => rfl
  | lo :: hi :: rest, (i + 1) =>
    simp only [List.length_cons] at h
    have h' : i < rest.length / 2 := by omega
    simp only [bytesToInt16, List.getD_cons_succ]
    rw [bytesToInt16_getD rest i h']
    congr 1

theorem int16LE_bounds (lo hi : Fin 256) :
    -32768 ≤ int16LE lo hi ∧ int16LE lo hi < 32768 := by
  have hlo := lo.isLt
  have hhi := hi.isLt
  simp only [int16LE]
  split <;> omega

/-- C10: for an even-length byte array and channel count 1, `decodeAudioData`
produces a single channel whose frame count is the byte length divided by 2,
whose sample `i` is the `i`-th little-endian signed 16-bit integer of the
input divided by 32768, and every sample lies in `[-1, 1)`.  Determinism in
the input bytes holds because the embedding is a pure function of `data`. -/
theorem decodeAudioData_pcm16_c10 (data : List (Fin 256)) (i : Nat)
    (heven : data.length % 2 = 0) (hi : i < data.length / 2) :
    (decodeAudioData data 1).length = 1 ∧
    ((decodeAudioData data 1).getD 0 []).length = data.length / 2 ∧
    ((decodeAudioData data 1).getD 0 []).getD i 0 =
      ((int16LE (data.getD (2 * i) 0) (data.getD (2 * i + 1) 0) : Int) : Rat) / 32768 ∧
    -1 ≤ ((decodeAudioData data 1).getD 0 []).getD i 0 ∧
    ((decodeAudioData data 1).getD 0 []).getD i 0 < 1 := by
  have hlen := bytesToInt16_length data
  have hdec : decodeAudioData data 1 =
      [(List.range (data.length / 2)).map (fun j =>
        (((bytesToInt16 data).getD j 0 : Int) : Rat) / 32768)] := by
    have h1 : List.range 1 = [0] := rfl
    simp [decodeAudioData, hlen, h1]
  have hchan : ((decodeAudioData data 1).getD 0 []) =
      (List.range (data.length / 2)).map (fun j =>
        (((bytesToInt16 data).getD j 0 : Int) : Rat) / 32768) := by
    rw [hdec]; rfl
  have hlen2 : ((List.range (data.length / 2)).map (fun j =>
      (((bytesToInt16 data).getD j 0 : Int) : Rat) / 32768)).length = data.length / 2 := by
    simp
  have hsample : ((decodeAudioData data 1).getD 0 []).getD i 0 =
      (((bytesToInt16 data).getD i 0 : Int) : Rat) / 32768 := by
    rw [hchan, List.getD_eq_getElem _ _ (by simpa using hi)]
    simp
  have hval := bytesToInt16_getD data i hi
  refine ⟨by rw [hdec]; rfl, by rw [hchan]; exact hlen2, by rw [hsample, hval], ?_, ?_⟩
  · rw [hsample, hval]
    have hb := (int16LE_bounds (data.getD (2 * i) 0) (data.getD (2 * i + 1) 0)).1
    rw [le_div_iff₀ (by norm_num : (0 : Rat) < 32768)]
    calc (-1 : Rat) * 32768 = ((-32768 : Int) : Rat) := by norm_num
      _ ≤ _ := by exact_mod_cast hb
  · rw [hsample, hval]
    have hb := (int16LE_bounds (data.getD (2 * i) 0) (data.getD (2 * i + 1) 0)).2
    rw [div_lt_one (by norm_num : (0 : Rat) < 32768)]
    exact_mod_cast hb

/-- Witness: `decodeAudioData` evaluated on the concrete bytes
`[0x34, 0x12, 0xFF, 0xFF]` (frames `0x1234` and `-1`). -/
theorem decodeAudioData_pcm16_c10_witness :
    (decodeAudioData [(52 : Fin 256), 18, 255, 255] 1).length = 1 ∧
    ((decodeAudioData [(52 : Fin 256), 18, 255, 255] 1).getD 0 []).length =
      [(52 : Fin 256), 18, 255, 255].length / 2 ∧
    ((decodeAudioData [(52 : Fin 256), 18, 255, 255] 1).getD 0 []).getD 0 0 =
      ((int16LE ([(52 : Fin 256), 18, 255, 255].getD (2 * 0) 0)
        ([(52 : Fin 256), 18, 255, 255].getD (2 * 0 + 1) 0) : Int) : Rat) / 32768 ∧
    -1 ≤ ((decodeAudioData [(52 : Fin 256), 18, 255, 255] 1).getD 0 []).getD 0 0 ∧
    ((decodeAudioData [(52 : Fin 256), 18, 255, 255] 1).getD 0 []).getD 0 0 < 1 :=
  decodeAudioData_pcm16_c10 [52, 18, 255, 255] 0 (by decide) (by decide)

/-! ## History persistence — `src/services/storageService.ts`, `saveHistoryItem`

The browser's `localStorage.setItem` either succeeds, throws
`QuotaExceededError`, or throws some other error; it is modelled by an
outcome oracle `save : List α → SaveOutcome` (a failed write leaves the
stored list unchanged).  History items are opaque (`α`).  The embedding
returns the list held in storage after the call. -/

inductive SaveOutcome where
  | ok
  | quotaExceeded
  | otherError
deriving DecidableEq, Repr

/-- The trimming loop of `saveHistoryItem` (lines 70-78):
`while (items.length > 1) { items.pop(); try { saveToStorage(items); return; } catch ... }`.
Returns the first successfully written list, or `none` when every attempt
down to a single entry failed (or the list already had at most one entry). -/
def trimAndSave {α : Type} (save : List α → SaveOutcome) (xs : List α) :
    Option (List α) :=
  if 1 < xs.length then
    if save xs.dropLast = .ok then some xs.dropLast
    else trimAndSave save xs.dropLast
  else none
termination_by xs.length
decreasing_by simp only [List.length_dropLast]; omega

/-- The `unshift`-then-cap prefix of `saveHistoryItem` (lines 50-56):
`items.unshift(item); if (items.length > 50) items = items.slice(0, 50)`. -/
def cappedHistory {α : Type} (stored : List α) (item : α) : List α :=
  if 50 < (item :: stored).length then (item :: stored).take 50 else item :: stored

/-- Embedding of `saveHistoryItem` (lines 44-86): prepend the new item, cap the list at 50
entries, write; on `QuotaExceededError` trim from the oldest end and retry;
swallow every error (the outer catch only logs). -/
def saveHistoryItem {α : Type} (save : List α → SaveOutcome) (stored : List α)
    (item : α) : List α :=
  if save (cappedHistory stored item) = .ok then cappedHistory stored item
  else if save (cappedHistory stored item) = .quotaExceeded then
    (trimAndSave save (cappedHistory stored item)).getD stored
  else stored

theorem trimAndSave_spec {α : Type} (save : List α → SaveOutcome) (xs ys : List α)
    (h : trimAndSave save xs = some ys) :
    save ys = .ok ∧ 1 ≤ ys.length ∧ ys.length < xs.length ∧ ys = xs.take ys.length := by
  by_cases hlen : 1 < xs.length
  · rw [trimAndSave, if_pos hlen] at h
    by_cases hok : save xs.dropLast = .ok
    · rw [if_pos hok] at h
      injection h with h
      subst h
      have hl : xs.dropLast.length = xs.length - 1 := List.length_dropLast xs
      refine ⟨hok, by omega, by omega, ?_⟩
      rw [hl]
      exact List.dropLast_eq_take xs
    · rw [if_neg hok] at h
      have ih := trimAndSave_spec save xs.dropLast ys h
      have hl : xs.dropLast.length = xs.length - 1 := List.length_dropLast xs
      have hlt : ys.length < xs.length - 1 := by
        have := ih.2.2.1; omega
      refine ⟨ih.1, ih.2.1, by omega, ?_⟩
      calc ys = xs.dropLast.take ys.length := ih.2.2.2
        _ = xs.take ys.length := by
              rw [List.dropLast_eq_take, List.take_take]
              congr 1
              omega
  · rw [trimAndSave, if_neg hlen] at h
    cases h
termination_by xs.length
decreasing_by simp only [List.length_dropLast]; omega

theorem cappedHistory_spec {α : Type} (stored : List α) (item : α) :
    1 ≤ (cappedHistory stored item).length ∧ (cappedHistory stored item).length ≤ 50 ∧
      cappedHistory stored item = (item :: stored).take (cappedHistory stored item).length := by
  unfold cappedHistory
  by_cases hcap : 50 < (item :: stored).length
  · rw [if_pos hcap]
    have h50 : ((item :: stored).take 50).length = 50 := by
      simp only [List.length_take, List.length_cons]
      simp only [List.length_cons] at hcap
      omega
    exact ⟨by omega, by omega, by rw [h50]⟩
  · rw [if_neg hcap]
    refine ⟨by simp, ?_, by rw [List.take_length]⟩
    simp only [List.length_cons] at hcap ⊢
    omega

theorem head?_take_cons {α : Type} (a : α) (l : List α) (n : Nat) (h : 1 ≤ n) :
    ((a :: l).take n).head? = some a := by
  cases n with
  | zero => omega
  | succ m => simp

/-- C9: `saveHistoryItem` places the new item at the front, never stores more
than 50 entries (the oldest beyond 50 are dropped), on quota failure retries
with one fewer entry (oldest removed) until the write succeeds or a single
entry remains, and never propagates a failure: the result is total, and a
complete failure leaves storage unchanged.  Every stored result other than the
untouched original is a non-empty prefix of `item :: stored` of length ≤ 50. -/
theorem saveHistoryItem_bounded_c9 {α : Type} (save : List α → SaveOutcome)
    (stored : List α) (item : α) (xs ys : List α) :
    (saveHistoryItem save stored item = stored ∨
      (1 ≤ (saveHistoryItem save stored item).length ∧
       (saveHistoryItem save stored item).length ≤ 50 ∧
       (saveHistoryItem save stored item).head? = some item ∧
       saveHistoryItem save stored item =
         (item :: stored).take (saveHistoryItem save stored item).length)) ∧
    (trimAndSave save xs = some ys →
      save ys = .ok ∧ 1 ≤ ys.length ∧ ys.length < xs.length ∧ ys = xs.take ys.length) := by
  refine ⟨?_, trimAndSave_spec save xs ys⟩
  have hc := cappedHistory_spec stored item
  unfold saveHistoryItem
  by_cases hok : save (cappedHistory stored item) = .ok
  · rw [if_pos hok]
    right
    exact ⟨hc.1, hc.2.1, by rw [hc.2.2]; exact head?_take_cons item stored _ hc.1, hc.2.2⟩
  · rw [if_neg hok]
    by_cases hq : save (cappedHistory stored item) = .quotaExceeded
    · rw [if_pos hq]
      rcases htr : trimAndSave save (cappedHistory stored item) with _ | ys0
      · left; simp
      · right
        have hs := trimAndSave_spec save _ _ htr
        have hys0 : ys0 = (item :: stored).take ys0.length := by
          calc ys0 = (cappedHistory stored item).take ys0.length := hs.2.2.2
            _ = (item :: stored).take ys0.length := by
                  conv_lhs => rw [hc.2.2]
                  rw [List.take_take]
                  congr 1
                  have h1 := hs.2.2.1
                  omega
        simp only [Option.getD_some]
        refine ⟨hs.2.1, ?_, ?_, hys0⟩
        · have := hs.2.2.1
          have := hc.2.1
          omega
        · rw [hys0]
          exact head?_take_cons item stored _ hs.2.1
    · rw [if_neg hq]
      left; rfl

/-- Witness: a store where only single-entry lists fit; saving on top of
`[1, 2, 3]` trims down to just the new item, and the trim loop is exercised. -/
theorem saveHistoryItem_bounded_c9_witness :
    (saveHistoryItem (fun l => if l.length ≤ 1 then .ok else .quotaExceeded) [1, 2, 3] 0 = [1, 2, 3] ∨
      (1 ≤ (saveHistoryItem (fun l => if l.length ≤ 1 then .ok else .quotaExceeded) [1, 2, 3] 0).length ∧
       (saveHistoryItem (fun l => if l.length ≤ 1 then .ok else .quotaExceeded) [1, 2, 3] 0).length ≤ 50 ∧
       (saveHistoryItem (fun l => if l.length ≤ 1 then .ok else .quotaExceeded) [1, 2, 3] 0).head? = some 0 ∧
       saveHistoryItem (fun l => if l.length ≤ 1 then .ok else .quotaExceeded) [1, 2, 3] 0 =
         ((0 : Nat) :: [1, 2, 3]).take (saveHistoryItem (fun l => if l.length ≤ 1 then .ok else .quotaExceeded) [1, 2, 3] 0).length)) ∧
    (trimAndSave (fun l => if l.length ≤ 1 then .ok else .quotaExceeded) [0, 1] = some [0] →
      (fun (l : List Nat) => if l.length ≤ 1 then SaveOutcome.ok else .quotaExceeded) [0] = .ok ∧
      1 ≤ ([0] : List Nat).length ∧ ([0] : List Nat).length < ([0, 1] : List Nat).length ∧
      ([0] : List Nat) = [0, 1].take ([0] : List Nat).length) :=
  saveHistoryItem_bounded_c9 (fun l => if l.length ≤ 1 then .ok else .quotaExceeded)
    [1, 2, 3] 0 [0, 1] [0]

/-! ## Remote AI calls — `src/services/geminiService.ts`

Each remote `generateContent` call is modelled by an oracle giving the
outcome of the n-th attempt the function makes; each embedded function
returns its result together with the number of remote attempts consumed,
so "exactly one attempt, no retry" is checkable.  Thrown JavaScript errors
are modelled as `Except.error`; a function that catches everything and
returns `null` is total with an `Option` result. -/

/-- Outcome of one remote text-generation attempt.  `success` carries the
optional `response.text`. -/
inductive CallOutcome where
  | rateLimited
  | netError
  | success (text : Option String)
deriving DecidableEq, Repr

/-- Errors propagated to callers of the identification/details calls. -/
inductive CallError where
  | rateLimit
  | network
  | noText
  | parseFail
deriving DecidableEq, Repr

/-- Embedding of `identifyLandmarkFromImage` (`src/services/geminiService.ts` lines 22-63):
one `generateContent` call; `if (!text) throw`; `JSON.parse` of the text; the
catch block logs and rethrows.  `parse` models `JSON.parse` plus the schema
(`α` is the parsed `LandmarkIdentification`).  Second component: number of
remote attempts consumed. -/
def identifyLandmarkFromImage {α : Type} (call : Nat → CallOutcome)
    (parse : String → Option α) : Except CallError α × Nat :=
  match call 0 with
  | .rateLimited => (.error .rateLimit, 1)
  | .netError => (.error .network, 1)
  | .success none => (.error .noText, 1)
  | .success (some t) =>
    match parse t with
    | none => (.error .parseFail, 1)
    | some d => (.ok d, 1)

/-- Embedding of `getLandmarkDetails` (lines 66-84): one `generateContent` call;
`response.text || "No details available."`; grounding chunks defaulting to
`[]`; the catch block logs and rethrows.  Sources are opaque (`β`). -/
def getLandmarkDetails {β : Type} (call : Nat → CallOutcome)
    (sources : List β) : Except CallError (String × List β) × Nat :=
  match call 0 with
  | .rateLimited => (.error .rateLimit, 1)
  | .netError => (.error .network, 1)
  | .success t => (.ok (t.getD "No details available.", sources), 1)

/-- Outcome of one remote TTS attempt.  `response` carries the optional
base64 audio payload (`candidates[0].content.parts[0].inlineData.data`). -/
inductive TTSOutcome where
  | failure
  | response (payload : Option (List (Fin 256)))
deriving DecidableEq

/-- Embedding of `generateNarrationAudio` (lines 87-117 and the shared-context variant at
lines 213-251): one `generateContent` call inside try/catch; a missing
payload returns `null`; the payload is decoded (`decode` models
`decodeAudioData` on the decoded base64 bytes, `none` for a decode throw,
which the catch turns into `null`); every caught error returns `null`.
Second component: number of remote attempts consumed. -/
def generateNarrationAudio {γ : Type} (call : Nat → TTSOutcome)
    (decode : List (Fin 256) → Option γ) : Option γ × Nat :=
  match call 0 with
  | .failure => (none, 1)
  | .response none => (none, 1)
  | .response (some bytes) =>
    match decode bytes with
    | none => (none, 1)
    | some buf => (some buf, 1)

/-- C6: `generateNarrationAudio` performs exactly one remote attempt per call
and never throws: for every outcome it resolves to either a decoded buffer
or `none`, with `none` immediately (without retrying) on a missing payload,
a decode failure, or any thrown remote error.  Totality of the embedding
(result type `Option γ`, no `Except`) is the no-throw property; the result
depends only on attempt 0, never on later attempts. -/
theorem generateNarrationAudio_single_attempt_c6 {γ : Type} (call call' : Nat → TTSOutcome)
    (decode : List (Fin 256) → Option γ) (bytes : List (Fin 256)) :
    (generateNarrationAudio call decode).2 = 1 ∧
    (call 0 = .failure → (generateNarrationAudio call decode).1 = none) ∧
    (call 0 = .response none → (generateNarrationAudio call decode).1 = none) ∧
    (call 0 = .response (some bytes) →
      (generateNarrationAudio call decode).1 = decode bytes) ∧
    (call 0 = call' 0 →
      generateNarrationAudio call decode = generateNarrationAudio call' decode) := by
  refine ⟨?_, ?_, ?_, ?_, ?_⟩
  · unfold generateNarrationAudio
    rcases call 0 with _ | p
    · rfl
    · rcases p with _ | b
      · rfl
      · rcases hd : decode b with _ | v <;> simp [hd]
  · intro h; simp [generateNarrationAudio, h]
  · intro h; simp [generateNarrationAudio, h]
  · intro h
    simp only [generateNarrationAudio, h]
    rcases decode bytes with _ | v <;> rfl
  · intro h
    unfold generateNarrationAudio
    rw [h]

/-- Witness: a rate-limited TTS attempt resolves to `none` after exactly one
attempt. -/
theorem generateNarrationAudio_single_attempt_c6_witness :
    (generateNarrationAudio (fun _ => .failure) (fun (_ : List (Fin 256)) => some 0)).2 = 1 ∧
    ((fun (_ : Nat) => TTSOutcome.failure) 0 = .failure →
      (generateNarrationAudio (fun _ => .failure) (fun (_ : List (Fin 256)) => some 0)).1 = none) ∧
    ((fun (_ : Nat) => TTSOutcome.failure) 0 = .response none →
      (generateNarrationAudio (fun _ => .failure) (fun (_ : List (Fin 256)) => some 0)).1 = none) ∧
    ((fun (_ : Nat) => TTSOutcome.failure) 0 = .response (some []) →
      (generateNarrationAudio (fun _ => .failure) (fun (_ : List (Fin 256)) => some 0)).1 =
        (fun (_ : List (Fin 256)) => some (0 : Nat)) []) ∧
    ((fun (_ : Nat) => TTSOutcome.failure) 0 = (fun (_ : Nat) => TTSOutcome.failure) 0 →
      generateNarrationAudio (fun _ => .failure) (fun (_ : List (Fin 256)) => some (0 : Nat)) =
        generateNarrationAudio (fun _ => .failure) (fun (_ : List (Fin 256)) => some 0)) :=
  generateNarrationAudio_single_attempt_c6 (fun _ => .failure) (fun _ => .failure)
    (fun _ => some 0) []

/-- C7 counterexample: with a rate-limited first attempt,
`identifyLandmarkFromImage` and `getLandmarkDetails` consume exactly one
remote attempt — no retry, no backoff — and propagate the rate-limit error to
the caller, contrary to the claimed 3-retry exponential-backoff policy. -/
theorem identifyDetails_no_retry_counterexample :
    (identifyLandmarkFromImage (fun _ => .rateLimited) (fun (_ : String) => some (0 : Nat))).2 = 1 ∧
    (identifyLandmarkFromImage (fun _ => .rateLimited) (fun (_ : String) => some (0 : Nat))).1 =
      .error .rateLimit ∧
    (getLandmarkDetails (fun _ => .rateLimited) ([] : List Nat)).2 = 1 ∧
    (getLandmarkDetails (fun _ => .rateLimited) ([] : List Nat)).1 = .error .rateLimit :=
  ⟨rfl, rfl, rfl, rfl⟩

/-- C7 (amended): `identifyLandmarkFromImage` and `getLandmarkDetails`
perform exactly one remote attempt per call and propagate every failure —
including a rate-limit signal — to the caller without retrying; the result
depends only on the first attempt. -/
theorem identifyDetails_single_attempt_c7 {α β : Type} (call : Nat → CallOutcome)
    (parse : String → Option α) (sources : List β) :
    (identifyLandmarkFromImage call parse).2 = 1 ∧
    (getLandmarkDetails (β := β) call sources).2 = 1 ∧
    (call 0 = .rateLimited →
      (identifyLandmarkFromImage call parse).1 = .error .rateLimit ∧
      (getLandmarkDetails (β := β) call sources).1 = .error .rateLimit) ∧
    (call 0 = .netError →
      (identifyLandmarkFromImage call parse).1 = .error .network ∧
      (getLandmarkDetails (β := β) call sources).1 = .error .network) := by
  refine ⟨?_, ?_, ?_, ?_⟩
  · unfold identifyLandmarkFromImage
    rcases call 0 with _ | _ | t
    · rfl
    · rfl
    · rcases t with _ | t
      · rfl
      · rcases hp : parse t with _ | d <;> simp [hp]
  · unfold getLandmarkDetails
    rcases call 0 with _ | _ | t <;> rfl
  · intro h
    constructor <;> simp [identifyLandmarkFromImage, getLandmarkDetails, h]
  · intro h
    constructor <;> simp [identifyLandmarkFromImage, getLandmarkDetails, h]

/-- Witness for the amended C7 at the concrete rate-limited oracle. -/
theorem identifyDetails_single_attempt_c7_witness :
    (identifyLandmarkFromImage (fun _ => .rateLimited) (fun (_ : String) => some (0 : Nat))).2 = 1 ∧
    (getLandmarkDetails (β := Nat) (fun _ => .rateLimited) []).2 = 1 ∧
    ((fun (_ : Nat) => CallOutcome.rateLimited) 0 = .rateLimited →
      (identifyLandmarkFromImage (fun _ => .rateLimited) (fun (_ : String) => some (0 : Nat))).1 =
        .error .rateLimit ∧
      (getLandmarkDetails (β := Nat) (fun _ => .rateLimited) []).1 = .error .rateLimit) ∧
    ((fun (_ : Nat) => CallOutcome.rateLimited) 0 = .netError →
      (identifyLandmarkFromImage (fun _ => .rateLimited) (fun (_ : String) => some (0 : Nat))).1 =
        .error .network ∧
      (getLandmarkDetails (β := Nat) (fun _ => .rateLimited) []).1 = .error .network) :=
  identifyDetails_single_attempt_c7 (fun _ => .rateLimited) (fun _ => some 0) []

/-! ## Segmented playback controller — `src/components/TourCard.tsx`

The result view's playback subsystem is a single-threaded, event-driven
state machine: React state (`isPlaying`, `currentSegmentIndex`, `segments`)
plus mutable refs (`sourceNodeRef`, `pauseTimeRef`, `startTimeRef`).  Each
synchronous handler — the controller `useEffect` body (lines 138-203),
`toggleAudio` (205-231), `stopAudio` (233-243), a source's `onended`
callback (179-189), and the resolution of a `loadSegment` fetch (109-132) —
runs atomically between interleaving points and is one transition of the
`Step` relation.

The Web Audio engine is modelled explicitly: every `createBufferSource` adds
a `SourceRec` (identified by its creation index); `onended = null` clears
`attached`; `stop()` sets `stopped`; physical completion sets `finished` and
runs the completion callback only while `attached` (in the browser,
`onended` also fires for a stopped source, which is why the code must detach
before stopping).  Engine calls are also recorded in an action log.
`AudioBuffer`s and times (`ctx.currentTime`, seconds) are opaque `Nat` ids
and exact rationals respectively. -/

inductive SegStatus where
  | pending
  | loading
  | ready
  | error
deriving DecidableEq, Repr

/-- One entry of the `segments` state (the `AudioSegment` interface, lines
14-18; the chunk text plays no role in the control flow and is omitted). -/
structure AudioSegment where
  buffer : Option Nat
  status : SegStatus
deriving DecidableEq, Repr

/-- The engine-side record of one created `AudioBufferSourceNode`. -/
structure SourceRec where
  seg : Nat
  attached : Bool
  stopped : Bool
  finished : Bool
deriving DecidableEq, Repr

/-- Engine call log entries. -/
inductive EngineAction where
  | start (id seg : Nat) (offset : Rat)
  | detach (id : Nat)
  | stop (id : Nat)
  | fetch (index : Nat)
deriving DecidableEq, Repr

/-- The state of one `TourCard` view's playback subsystem. -/
structure TCState where
  isPlaying : Bool
  currentSegmentIndex : Nat
  segments : List AudioSegment
  sourceNode : Option Nat
  pauseTime : Rat
  startTime : Rat
  isAudioUnavailable : Bool
  isBuffering : Bool
  sources : List SourceRec
  log : List EngineAction
deriving DecidableEq, Repr

/-- Engine call `sourceNodeRef.current.onended = null` on source `id`. -/
def detachSource (id : Nat) (s : TCState) : TCState :=
  match s.sources[id]? with
  | some sr => { s with sources := s.sources.set id { sr with attached := false },
                        log := s.log ++ [.detach id] }
  | none => s

/-- Engine call `sourceNodeRef.current.stop()` on source `id`. -/
def stopSource (id : Nat) (s : TCState) : TCState :=
  match s.sources[id]? with
  | some sr => { s with sources := s.sources.set id { sr with stopped := true },
                        log := s.log ++ [.stop id] }
  | none => s

/-- The synchronous prefix of `loadSegment` (lines 95-107): bounds check,
skip unless the segment is still `pending`, mark it `loading` and issue the
fetch (`generateAudioChunk`); the asynchronous completion is `resolveFetch`. -/
def loadSegment (index : Nat) (s : TCState) : TCState :=
  if s.segments.length ≤ index then s
  else
    match s.segments[index]? with
    | none => s
    | some sg =>
      if sg.status = .pending then
        { s with segments := s.segments.set index { sg with status := .loading },
                 log := s.log ++ [.fetch index] }
      else s

/-- Completion of a `loadSegment` fetch (lines 110-124): `some b` marks the
segment `ready` with its buffer; `none` (the chunk fetcher resolved without
a buffer) marks it `error`, and for index 0 also sets the persistent
audio-unavailable flag (line 121). -/
def resolveFetch (index : Nat) (buffer : Option Nat) (s : TCState) : TCState :=
  match s.segments[index]? with
  | none => s
  | some sg =>
    match buffer with
    | some b =>
      { s with segments := s.segments.set index { buffer := some b, status := .ready } }
    | none =>
      { s with segments := s.segments.set index { sg with status := .error },
               isAudioUnavailable := if index = 0 then true else s.isAudioUnavailable }

/-- The playlist controller effect (lines 138-203), run at context time
`now`: do nothing while paused; finish and reset past the last segment; do
nothing while a source is physically playing; on a `ready` segment create,
connect and start a source at the stored pause offset, record the start
time, then preload the next segment; on `pending` trigger its load; on
`loading` wait (buffering); on `error` skip to the next index. -/
def runEffect (now : Rat) (s : TCState) : TCState :=
  if s.isPlaying = false then s
  else if s.segments.length ≤ s.currentSegmentIndex then
    { s with isPlaying := false, currentSegmentIndex := 0, pauseTime := 0 }
  else if s.sourceNode.isSome then s
  else
    match s.segments[s.currentSegmentIndex]? with
    | none => s
    | some sg =>
      match sg.status with
      | .ready =>
        match sg.buffer with
        | some _ =>
          let id := s.sources.length
          let offset := s.pauseTime
          let s1 := { s with
            isBuffering := false,
            startTime := now - offset,
            sourceNode := some id,
            sources := s.sources ++ [⟨s.currentSegmentIndex, true, false, false⟩],
            log := s.log ++ [.start id s.currentSegmentIndex offset] }
          if s.currentSegmentIndex + 1 < s.segments.length then
            loadSegment (s.currentSegmentIndex + 1) s1
          else s1
        | none => s
      | .pending => loadSegment s.currentSegmentIndex { s with isBuffering := true }
      | .loading => { s with isBuffering := true }
      | .error => { s with currentSegmentIndex := s.currentSegmentIndex + 1 }

/-- Embedding of `toggleAudio` (lines 205-231).  While playing: detach the completion
callback, stop the source, store the elapsed offset
(`ctx.currentTime - startTimeRef.current`), clear the reference, leave
playing state.  While paused: resume the context and set playing (the
controller effect then restarts playback). -/
def toggleAudio (now : Rat) (s : TCState) : TCState :=
  if s.isPlaying then
    let s1 :=
      match s.sourceNode with
      | some id =>
        { stopSource id (detachSource id s) with
            pauseTime := now - s.startTime, sourceNode := none }
      | none => s
    { s1 with isPlaying := false, isBuffering := false }
  else
    { s with isPlaying := true }

/-- Embedding of `stopAudio` (lines 233-243), also the unmount teardown path (line 78):
detach the callback, stop the source, clear the reference, reset the
playback position and index. -/
def stopAudio (s : TCState) : TCState :=
  let s1 :=
    match s.sourceNode with
    | some id =>
      { stopSource id (detachSource id s) with sourceNode := none }
    | none => s
  { s1 with isPlaying := false, isBuffering := false, pauseTime := 0,
            currentSegmentIndex := 0 }

/-- Physical end of source `id` (fires once per source, whether by natural
completion or by `stop()`).  The `onended` handler (lines 179-189) runs only
if still attached: clear the reference, reset the pause offset, advance the
index. -/
def onEnded (id : Nat) (s : TCState) : TCState :=
  match s.sources[id]? with
  | none => s
  | some sr =>
    let s1 := { s with sources := s.sources.set id { sr with finished := true } }
    if sr.attached then
      { s1 with sourceNode := none, pauseTime := 0,
                currentSegmentIndex := s.currentSegmentIndex + 1 }
    else s1

/-- View mount (lines 45-83) for a narration split into `n` chunks: all
segments start `pending`; chunk 0's load starts immediately; an empty chunk
list sets the audio-unavailable flag. -/
def initState (n : Nat) : TCState :=
  let base : TCState := {
    isPlaying := false, currentSegmentIndex := 0,
    segments := List.replicate n ⟨none, .pending⟩,
    sourceNode := none, pauseTime := 0, startTime := 0,
    isAudioUnavailable := false, isBuffering := false, sources := [], log := [] }
  if n = 0 then { base with isAudioUnavailable := true }
  else loadSegment 0 base

/-- One atomic event of the playback subsystem.  `ended` requires the source
to exist and not to have already finished; `resolved` requires an in-flight
fetch for the segment. -/
inductive Step : TCState → TCState → Prop where
  | effect (now : Rat) (s : TCState) : Step s (runEffect now s)
  | toggle (now : Rat) (s : TCState) : Step s (toggleAudio now s)
  | teardown (s : TCState) : Step s (stopAudio s)
  | ended (id : Nat) (s : TCState) (sr : SourceRec)
      (hsr : s.sources[id]? = some sr) (hfin : sr.finished = false) :
      Step s (onEnded id s)
  | resolved (index : Nat) (buffer : Option Nat) (s : TCState) (sg : AudioSegment)
      (hsg : s.segments[index]? = some sg) (hload : sg.status = .loading) :
      Step s (resolveFetch index buffer s)

/-- States reachable from mounting a view with `n` narration chunks. -/
inductive Reachable (n : Nat) : TCState → Prop where
  | init : Reachable n (initState n)
  | step {s t : TCState} : Reachable n s → Step s t → Reachable n t

/-! ### Transition characterizations -/

@[simp] theorem loadSegment_sources (index : Nat) (s : TCState) :
    (loadSegment index s).sources = s.sources := by
  unfold loadSegment
  repeat first | rfl | split

@[simp] theorem loadSegment_sourceNode (index : Nat) (s : TCState) :
    (loadSegment index s).sourceNode = s.sourceNode := by
  unfold loadSegment
  repeat first | rfl | split

@[simp] theorem loadSegment_isPlaying (index : Nat) (s : TCState) :
    (loadSegment index s).isPlaying = s.isPlaying := by
  unfold loadSegment
  repeat first | rfl | split

@[simp] theorem loadSegment_currentSegmentIndex (index : Nat) (s : TCState) :
    (loadSegment index s).currentSegmentIndex = s.currentSegmentIndex := by
  unfold loadSegment
  repeat first | rfl | split

@[simp] theorem loadSegment_pauseTime (index : Nat) (s : TCState) :
    (loadSegment index s).pauseTime = s.pauseTime := by
  unfold loadSegment
  repeat first | rfl | split

@[simp] theorem loadSegment_startTime (index : Nat) (s : TCState) :
    (loadSegment index s).startTime = s.startTime := by
  unfold loadSegment
  repeat first | rfl | split

@[simp] theorem loadSegment_isAudioUnavailable (index : Nat) (s : TCState) :
    (loadSegment index s).isAudioUnavailable = s.isAudioUnavailable := by
  unfold loadSegment
  repeat first | rfl | split

@[simp] theorem resolveFetch_sources (index : Nat) (buffer : Option Nat) (s : TCState) :
    (resolveFetch index buffer s).sources = s.sources := by
  unfold resolveFetch
  repeat first | rfl | split

@[simp] theorem resolveFetch_sourceNode (index : Nat) (buffer : Option Nat) (s : TCState) :
    (resolveFetch index buffer s).sourceNode = s.sourceNode := by
  unfold resolveFetch
  repeat first | rfl | split

/-- Calling `loadSegment` with a non-`pending` segment does nothing: no fetch, no
status change (guard at line 100). -/
theorem loadSegment_not_pending (index : Nat) (s : TCState) (sg : AudioSegment)
    (hsg : s.segments[index]? = some sg) (hnp : sg.status ≠ .pending) :
    loadSegment index s = s := by
  have hlt : index < s.segments.length := (List.getElem?_eq_some.mp hsg).1
  unfold loadSegment
  rw [if_neg (by omega), hsg]
  dsimp only
  rw [if_neg hnp]

/-- Calling `loadSegment` on a `pending` segment marks it `loading` and issues the
fetch. -/
theorem loadSegment_pending (index : Nat) (s : TCState) (sg : AudioSegment)
    (hsg : s.segments[index]? = some sg) (hp : sg.status = .pending) :
    loadSegment index s =
      { s with segments := s.segments.set index { sg with status := .loading },
               log := s.log ++ [.fetch index] } := by
  have hlt : index < s.segments.length := (List.getElem?_eq_some.mp hsg).1
  unfold loadSegment
  rw [if_neg (by omega), hsg]
  dsimp only
  rw [if_pos hp]

theorem detachSource_eq (s : TCState) (id : Nat) (sr : SourceRec)
    (h : s.sources[id]? = some sr) :
    detachSource id s =
      { s with sources := s.sources.set id { sr with attached := false },
               log := s.log ++ [.detach id] } := by
  unfold detachSource
  rw [h]

theorem stopSource_eq (s : TCState) (id : Nat) (sr : SourceRec)
    (h : s.sources[id]? = some sr) :
    stopSource id s =
      { s with sources := s.sources.set id { sr with stopped := true },
               log := s.log ++ [.stop id] } := by
  unfold stopSource
  rw [h]

/-- Detach-then-stop (the order used by both `toggleAudio` and `stopAudio`):
the log records the detach strictly before the stop, and the source record
ends up detached and stopped. -/
theorem detachStop_eq (s : TCState) (id : Nat) (sr : SourceRec)
    (h : s.sources[id]? = some sr) :
    stopSource id (detachSource id s) =
      { s with sources := s.sources.set id ⟨sr.seg, false, true, sr.finished⟩,
               log := s.log ++ [.detach id, .stop id] } := by
  have hid : id < s.sources.length := (List.getElem?_eq_some.mp h).1
  rw [detachSource_eq s id sr h]
  have h2 : (s.sources.set id { sr with attached := false })[id]? =
      some { sr with attached := false } :=
    List.getElem?_set_eq_of_lt _ hid
  rw [stopSource_eq _ id _ h2]
  simp [List.set_set]

theorem toggleAudio_pause_eq (now : Rat) (s : TCState) (id : Nat) (sr : SourceRec)
    (hplay : s.isPlaying = true) (href : s.sourceNode = some id)
    (hsr : s.sources[id]? = some sr) :
    toggleAudio now s =
      { s with sources := s.sources.set id ⟨sr.seg, false, true, sr.finished⟩,
               log := s.log ++ [.detach id, .stop id],
               pauseTime := now - s.startTime, sourceNode := none,
               isPlaying := false, isBuffering := false } := by
  simp only [toggleAudio, hplay, href, if_pos rfl]
  rw [detachStop_eq s id sr hsr]
  simp

theorem toggleAudio_pause_none_eq (now : Rat) (s : TCState)
    (hplay : s.isPlaying = true) (href : s.sourceNode = none) :
    toggleAudio now s = { s with isPlaying := false, isBuffering := false } := by
  simp [toggleAudio, hplay, href]

theorem toggleAudio_resume_eq (now : Rat) (s : TCState) (hplay : s.isPlaying = false) :
    toggleAudio now s = { s with isPlaying := true } := by
  simp [toggleAudio, hplay]

theorem stopAudio_some_eq (s : TCState) (id : Nat) (sr : SourceRec)
    (href : s.sourceNode = some id) (hsr : s.sources[id]? = some sr) :
    stopAudio s =
      { s with sources := s.sources.set id ⟨sr.seg, false, true, sr.finished⟩,
               log := s.log ++ [.detach id, .stop id],
               sourceNode := none, isPlaying := false, isBuffering := false,
               pauseTime := 0, currentSegmentIndex := 0 } := by
  simp only [stopAudio, href]
  rw [detachStop_eq s id sr hsr]

theorem stopAudio_none_eq (s : TCState) (href : s.sourceNode = none) :
    stopAudio s =
      { s with isPlaying := false, isBuffering := false, pauseTime := 0,
               currentSegmentIndex := 0 } := by
  simp [stopAudio, href]

theorem onEnded_attached_eq (id : Nat) (s : TCState) (sr : SourceRec)
    (h : s.sources[id]? = some sr) (ha : sr.attached = true) :
    onEnded id s =
      { s with sources := s.sources.set id { sr with finished := true },
               sourceNode := none, pauseTime := 0,
               currentSegmentIndex := s.currentSegmentIndex + 1 } := by
  simp only [onEnded, h, ha, if_true]

theorem onEnded_detached_eq (id : Nat) (s : TCState) (sr : SourceRec)
    (h : s.sources[id]? = some sr) (ha : sr.attached = false) :
    onEnded id s =
      { s with sources := s.sources.set id { sr with finished := true } } := by
  simp only [onEnded, h, ha]
  rw [if_neg (by simp)]

theorem runEffect_not_playing (now : Rat) (s : TCState) (h : s.isPlaying = false) :
    runEffect now s = s := by
  unfold runEffect
  rw [h, if_pos rfl]

theorem runEffect_finished_eq (now : Rat) (s : TCState) (hplay : s.isPlaying = true)
    (h : s.segments.length ≤ s.currentSegmentIndex) :
    runEffect now s =
      { s with isPlaying := false, currentSegmentIndex := 0, pauseTime := 0 } := by
  unfold runEffect
  rw [hplay, if_neg (by simp), if_pos h]

theorem runEffect_busy (now : Rat) (s : TCState) (id : Nat) (hplay : s.isPlaying = true)
    (hlt : s.currentSegmentIndex < s.segments.length) (h : s.sourceNode = some id) :
    runEffect now s = s := by
  unfold runEffect
  rw [hplay, if_neg (by simp), if_neg (by omega), h, if_pos (by simp)]

theorem runEffect_pending_eq (now : Rat) (s : TCState) (sg : AudioSegment)
    (hplay : s.isPlaying = true) (href : s.sourceNode = none)
    (hsg : s.segments[s.currentSegmentIndex]? = some sg) (hst : sg.status = .pending) :
    runEffect now s = loadSegment s.currentSegmentIndex { s with isBuffering := true } := by
  have hlt : s.currentSegmentIndex < s.segments.length := (List.getElem?_eq_some.mp hsg).1
  unfold runEffect
  rw [hplay, if_neg (by simp), if_neg (by omega), href, if_neg (by simp), hsg]
  dsimp only
  rw [hst]

theorem runEffect_loading_eq (now : Rat) (s : TCState) (sg : AudioSegment)
    (hplay : s.isPlaying = true) (href : s.sourceNode = none)
    (hsg : s.segments[s.currentSegmentIndex]? = some sg) (hst : sg.status = .loading) :
    runEffect now s = { s with isBuffering := true } := by
  have hlt : s.currentSegmentIndex < s.segments.length := (List.getElem?_eq_some.mp hsg).1
  unfold runEffect
  rw [hplay, if_neg (by simp), if_neg (by omega), href, if_neg (by simp), hsg]
  dsimp only
  rw [hst]

theorem runEffect_error_eq (now : Rat) (s : TCState) (sg : AudioSegment)
    (hplay : s.isPlaying = true) (href : s.sourceNode = none)
    (hsg : s.segments[s.currentSegmentIndex]? = some sg) (hst : sg.status = .error) :
    runEffect now s = { s with currentSegmentIndex := s.currentSegmentIndex + 1 } := by
  have hlt : s.currentSegmentIndex < s.segments.length := (List.getElem?_eq_some.mp hsg).1
  unfold runEffect
  rw [hplay, if_neg (by simp), if_neg (by omega), href, if_neg (by simp), hsg]
  dsimp only
  rw [hst]

theorem runEffect_ready_nobuf (now : Rat) (s : TCState) (sg : AudioSegment)
    (hplay : s.isPlaying = true) (href : s.sourceNode = none)
    (hsg : s.segments[s.currentSegmentIndex]? = some sg) (hst : sg.status = .ready)
    (hbuf : sg.buffer = none) :
    runEffect now s = s := by
  have hlt : s.currentSegmentIndex < s.segments.length := (List.getElem?_eq_some.mp hsg).1
  unfold runEffect
  rw [hplay, if_neg (by simp), if_neg (by omega), href, if_neg (by simp), hsg]
  dsimp only
  rw [hst]
  dsimp only
  rw [hbuf]

/-- The play branch (lines 154-189): start a source for the current segment
at the stored pause offset, record the start time, hold the reference, and
preload the next segment (`loadSegment` itself skips an out-of-range or
non-pending next segment). -/
theorem runEffect_play_eq (now : Rat) (s : TCState) (b : Nat) (sg : AudioSegment)
    (hplay : s.isPlaying = true) (href : s.sourceNode = none)
    (hsg : s.segments[s.currentSegmentIndex]? = some sg)
    (hst : sg.status = .ready) (hbuf : sg.buffer = some b) :
    runEffect now s =
      loadSegment (s.currentSegmentIndex + 1)
        { s with isBuffering := false,
                 startTime := now - s.pauseTime,
                 sourceNode := some s.sources.length,
                 sources := s.sources ++ [⟨s.currentSegmentIndex, true, false, false⟩],
                 log := s.log ++
                   [.start s.sources.length s.currentSegmentIndex s.pauseTime] } := by
  have hlt : s.currentSegmentIndex < s.segments.length := (List.getElem?_eq_some.mp hsg).1
  unfold runEffect
  rw [hplay, if_neg (by simp), if_neg (by omega), href, if_neg (by simp), hsg]
  dsimp only
  rw [hst]
  dsimp only
  rw [hbuf]
  dsimp only
  by_cases hnext : s.currentSegmentIndex + 1 < s.segments.length
  · rw [if_pos hnext]
  · rw [if_neg hnext]
    unfold loadSegment
    rw [if_pos (by simp; omega)]

/-! ### The single-active-source invariant -/

/-- Engine-level invariant maintained by every reachable state: a stopped
source has its callback detached; an unstopped, unfinished (i.e. physically
active) source is exactly the one held in `sourceNodeRef`; the held
reference is a valid source id. -/
def SourceInv (s : TCState) : Prop :=
  (∀ (id : Nat) (sr : SourceRec), s.sources[id]? = some sr →
      sr.stopped = true → sr.attached = false) ∧
  (∀ (id : Nat) (sr : SourceRec), s.sources[id]? = some sr →
      sr.stopped = false → sr.finished = false → s.sourceNode = some id) ∧
  (∀ id : Nat, s.sourceNode = some id → id < s.sources.length)

theorem sourceInv_of_eq {s t : TCState} (h1 : t.sources = s.sources)
    (h2 : t.sourceNode = s.sourceNode) (h : SourceInv s) : SourceInv t := by
  refine ⟨?_, ?_, ?_⟩
  · intro id sr hsr hst
    exact h.1 id sr (by rwa [h1] at hsr) hst
  · intro id sr hsr hst hf
    rw [h2]
    exact h.2.1 id sr (by rwa [h1] at hsr) hst hf
  · intro id hid
    rw [h1]
    exact h.2.2 id (by rwa [h2] at hid)

theorem getElem?_set_cases {α : Type} {l : List α} {i j : Nat} {a x : α}
    (h : (l.set i a)[j]? = some x) :
    (i = j ∧ j < l.length ∧ x = a) ∨ (i ≠ j ∧ l[j]? = some x) := by
  by_cases hij : i = j
  · subst hij
    left
    have hlt : i < l.length := by
      have := (List.getElem?_eq_some.mp h).1
      simpa using this
    rw [List.getElem?_set_eq_of_lt a hlt] at h
    exact ⟨rfl, hlt, (Option.some.inj h).symm⟩
  · right
    rw [List.getElem?_set_ne hij] at h
    exact ⟨hij, h⟩

theorem getElem?_append_single_cases {α : Type} {l : List α} {x y : α} {j : Nat}
    (h : (l ++ [x])[j]? = some y) :
    (j < l.length ∧ l[j]? = some y) ∨ (j = l.length ∧ y = x) := by
  by_cases hj : j < l.length
  · left
    rw [List.getElem?_append_left hj] at h
    exact ⟨hj, h⟩
  · right
    have hlen : j < l.length + 1 := by
      have := (List.getElem?_eq_some.mp h).1
      simpa using this
    have hje : j = l.length := by omega
    subst hje
    rw [List.getElem?_concat_length] at h
    exact ⟨rfl, (Option.some.inj h).symm⟩

@[simp] theorem initState_sources (n : Nat) : (initState n).sources = [] := by
  unfold initState
  split <;> simp

@[simp] theorem initState_sourceNode (n : Nat) : (initState n).sourceNode = none := by
  unfold initState
  split <;> simp

theorem sourceInv_init (n : Nat) : SourceInv (initState n) := by
  refine ⟨?_, ?_, ?_⟩
  · intro id sr hsr
    rw [initState_sources] at hsr
    simp at hsr
  · intro id sr hsr
    rw [initState_sources] at hsr
    simp at hsr
  · intro id hid
    rw [initState_sourceNode] at hid
    simp at hid

theorem sourceInv_step {s t : TCState} (hinv : SourceInv s) (hst : Step s t) :
    SourceInv t := by
  obtain ⟨inv1, inv2, inv3⟩ := hinv
  cases hst with
  | effect now s =>
    rcases hp : s.isPlaying with _ | _
    · rw [runEffect_not_playing now s hp]
      exact ⟨inv1, inv2, inv3⟩
    · by_cases hfin : s.segments.length ≤ s.currentSegmentIndex
      · rw [runEffect_finished_eq now s hp hfin]
        exact sourceInv_of_eq rfl rfl ⟨inv1, inv2, inv3⟩
      · have hlt : s.currentSegmentIndex < s.segments.length := by omega
        rcases href : s.sourceNode with _ | id
        · obtain ⟨sg, hsg⟩ : ∃ sg, s.segments[s.currentSegmentIndex]? = some sg := by
            rcases hq : s.segments[s.currentSegmentIndex]? with _ | sg
            · rw [List.getElem?_eq_none_iff] at hq
              omega
            · exact ⟨sg, rfl⟩
          rcases hstt : sg.status with _ | _ | _ | _
          · rw [runEffect_pending_eq now s sg hp href hsg hstt]
            exact sourceInv_of_eq (by simp) (by simp) ⟨inv1, inv2, inv3⟩
          · rw [runEffect_loading_eq now s sg hp href hsg hstt]
            exact sourceInv_of_eq rfl rfl ⟨inv1, inv2, inv3⟩
          · rcases hbuf : sg.buffer with _ | b
            · rw [runEffect_ready_nobuf now s sg hp href hsg hstt hbuf]
              exact ⟨inv1, inv2, inv3⟩
            · rw [runEffect_play_eq now s b sg hp href hsg hstt hbuf]
              refine ⟨?_, ?_, ?_⟩
              · intro j sr hsr hstp
                rw [loadSegment_sources] at hsr
                dsimp only at hsr
                rcases getElem?_append_single_cases hsr with ⟨hj, hold⟩ | ⟨hj, hxe⟩
                · exact inv1 j sr hold hstp
                · rw [hxe] at hstp
                  simp at hstp
              · intro j sr hsr hstp hfn
                rw [loadSegment_sources] at hsr
                dsimp only at hsr
                rcases getElem?_append_single_cases hsr with ⟨hj, hold⟩ | ⟨hj, hxe⟩
                · have hact := inv2 j sr hold hstp hfn
                  rw [href] at hact
                  simp at hact
                · rw [loadSegment_sourceNode]
                  dsimp only
                  rw [hj]
              · intro j hj
                rw [loadSegment_sourceNode] at hj
                dsimp only at hj
                rw [loadSegment_sources]
                dsimp only
                have hje : s.sources.length = j := Option.some.inj hj
                simp [List.length_append, ← hje]
          · rw [runEffect_error_eq now s sg hp href hsg hstt]
            exact sourceInv_of_eq rfl rfl ⟨inv1, inv2, inv3⟩
        · rw [runEffect_busy now s id hp hlt href]
          exact ⟨inv1, inv2, inv3⟩
  | toggle now s =>
    rcases hp : s.isPlaying with _ | _
    · rw [toggleAudio_resume_eq now s hp]
      exact sourceInv_of_eq rfl rfl ⟨inv1, inv2, inv3⟩
    · rcases href : s.sourceNode with _ | id
      · rw [toggleAudio_pause_none_eq now s hp href]
        exact sourceInv_of_eq rfl rfl ⟨inv1, inv2, inv3⟩
      · have hid : id < s.sources.length := inv3 id href
        obtain ⟨sr, hsr⟩ : ∃ sr, s.sources[id]? = some sr :=
          ⟨_, List.getElem?_eq_getElem hid⟩
        rw [toggleAudio_pause_eq now s id sr hp href hsr]
        refine ⟨?_, ?_, ?_⟩
        · intro j sr1 hsr1 hstp
          dsimp only at hsr1
          rcases getElem?_set_cases hsr1 with ⟨hij, hjl, hxe⟩ | ⟨hij, hold⟩
          · rw [hxe]
          · exact inv1 j sr1 hold hstp
        · intro j sr1 hsr1 hstp hfn
          dsimp only at hsr1
          rcases getElem?_set_cases hsr1 with ⟨hij, hjl, hxe⟩ | ⟨hij, hold⟩
          · rw [hxe] at hstp
            simp at hstp
          · have hj := inv2 j sr1 hold hstp hfn
            rw [href] at hj
            exact absurd (Option.some.inj hj) hij
        · intro j hj
          dsimp only at hj
          simp at hj
  | teardown s =>
    rcases href : s.sourceNode with _ | id
    · rw [stopAudio_none_eq s href]
      exact sourceInv_of_eq rfl rfl ⟨inv1, inv2, inv3⟩
    · have hid : id < s.sources.length := inv3 id href
      obtain ⟨sr, hsr⟩ : ∃ sr, s.sources[id]? = some sr :=
        ⟨_, List.getElem?_eq_getElem hid⟩
      rw [stopAudio_some_eq s id sr href hsr]
      refine ⟨?_, ?_, ?_⟩
      · intro j sr1 hsr1 hstp
        dsimp only at hsr1
        rcases getElem?_set_cases hsr1 with ⟨hij, hjl, hxe⟩ | ⟨hij, hold⟩
        · rw [hxe]
        · exact inv1 j sr1 hold hstp
      · intro j sr1 hsr1 hstp hfn
        dsimp only at hsr1
        rcases getElem?_set_cases hsr1 with ⟨hij, hjl, hxe⟩ | ⟨hij, hold⟩
        · rw [hxe] at hstp
          simp at hstp
        · have hj := inv2 j sr1 hold hstp hfn
          rw [href] at hj
          exact absurd (Option.some.inj hj) hij
      · intro j hj
        dsimp only at hj
        simp at hj
  | ended id s sr hsr hfin =>
    rcases ha : sr.attached with _ | _
    · rw [onEnded_detached_eq id s sr hsr ha]
      refine ⟨?_, ?_, ?_⟩
      · intro j sr1 hsr1 hstp
        dsimp only at hsr1
        rcases getElem?_set_cases hsr1 with ⟨hij, hjl, hxe⟩ | ⟨hij, hold⟩
        · rw [hxe]
          simpa using ha
        · exact inv1 j sr1 hold hstp
      · intro j sr1 hsr1 hstp hfn
        dsimp only at hsr1 ⊢
        rcases getElem?_set_cases hsr1 with ⟨hij, hjl, hxe⟩ | ⟨hij, hold⟩
        · rw [hxe] at hfn
          simp at hfn
        · exact inv2 j sr1 hold hstp hfn
      · intro j hj
        dsimp only at hj ⊢
        have := inv3 j hj
        simpa using this
    · rw [onEnded_attached_eq id s sr hsr ha]
      refine ⟨?_, ?_, ?_⟩
      · intro j sr1 hsr1 hstp
        dsimp only at hsr1
        rcases getElem?_set_cases hsr1 with ⟨hij, hjl, hxe⟩ | ⟨hij, hold⟩
        · have hstop : sr.stopped = true := by
            rw [hxe] at hstp
            simpa using hstp
          have := inv1 id sr hsr hstop
          rw [hxe]
          simpa using this
        · exact inv1 j sr1 hold hstp
      · intro j sr1 hsr1 hstp hfn
        dsimp only at hsr1
        rcases getElem?_set_cases hsr1 with ⟨hij, hjl, hxe⟩ | ⟨hij, hold⟩
        · rw [hxe] at hfn
          simp at hfn
        · have hj := inv2 j sr1 hold hstp hfn
          have hsrstop : sr.stopped = false := by
            rcases hq : sr.stopped with _ | _
            · rfl
            · have := inv1 id sr hsr hq
              rw [ha] at this
              cases this
          have hidn := inv2 id sr hsr hsrstop hfin
          rw [hj] at hidn
          exact absurd (Option.some.inj hidn).symm hij
      · intro j hj
        dsimp only at hj
        simp at hj
  | resolved index buffer s sg hsg hload =>
    exact sourceInv_of_eq (by simp) (by simp) ⟨inv1, inv2, inv3⟩

theorem sourceInv_reachable {n : Nat} {s : TCState} (h : Reachable n s) :
    SourceInv s := by
  induction h with
  | init => exact sourceInv_init n
  | step _ hstep ih => exact sourceInv_step ih hstep

/-- Number of sources that are physically active (started, neither stopped
nor finished). -/
def activeSourceCount (s : TCState) : Nat :=
  (s.sources.filter (fun sr => !sr.stopped && !sr.finished)).length

theorem filter_length_le_one {α : Type} {l : List α} {p : α → Bool} (k : Nat)
    (h : ∀ (i : Nat) (x : α), l[i]? = some x → p x = true → i = k) :
    (l.filter p).length ≤ 1 := by
  induction l generalizing k with
  | nil => simp
  | cons a l ih =>
    by_cases hpa : p a = true
    · have hk : 0 = k := h 0 a (by simp) hpa
      have hnil : l.filter p = [] := by
        rw [List.filter_eq_nil_iff]
        intro x hx hpx
        obtain ⟨i, hi⟩ := List.mem_iff_getElem?.mp hx
        have := h (i + 1) x (by simpa using hi) hpx
        omega
      rw [List.filter_cons_of_pos hpa, hnil]
      simp
    · rw [List.filter_cons_of_neg hpa]
      cases k with
      | zero =>
        have hnil : l.filter p = [] := by
          rw [List.filter_eq_nil_iff]
          intro x hx hpx
          obtain ⟨i, hi⟩ := List.mem_iff_getElem?.mp hx
          have := h (i + 1) x (by simpa using hi) hpx
          omega
        simp [hnil]
      | succ k0 =>
        apply ih k0
        intro i x hx hpx
        have := h (i + 1) x (by simpa using hx) hpx
        omega

/-- C1: in every reachable state of the playback subsystem at most one
source is physically active; every stopped source had its completion
callback detached; every source other than the one held in `sourceNodeRef`
has already been stopped or has finished (so when the controller starts a
new source — which it does only with `sourceNodeRef` empty — every prior
source is inert); and the controller effect never creates a source while
`sourceNodeRef` holds one. -/
theorem playback_single_source_c1 (n : Nat) (s : TCState) (h : Reachable n s) :
    activeSourceCount s ≤ 1 ∧
    (∀ (id : Nat) (sr : SourceRec), s.sources[id]? = some sr → sr.stopped = true →
        sr.attached = false) ∧
    (∀ (id : Nat) (sr : SourceRec), s.sources[id]? = some sr → s.sourceNode ≠ some id →
        sr.stopped = true ∨ sr.finished = true) ∧
    (∀ now : Rat, s.sourceNode.isSome = true → (runEffect now s).sources = s.sources) := by
  obtain ⟨inv1, inv2, inv3⟩ := sourceInv_reachable h
  refine ⟨?_, inv1, ?_, ?_⟩
  · unfold activeSourceCount
    rcases hsn : s.sourceNode with _ | k
    · have hnil : s.sources.filter (fun sr => !sr.stopped && !sr.finished) = [] := by
        rw [List.filter_eq_nil_iff]
        intro x hx hpx
        obtain ⟨i, hi⟩ := List.mem_iff_getElem?.mp hx
        simp only [Bool.and_eq_true, Bool.not_eq_true'] at hpx
        have := inv2 i x hi hpx.1 hpx.2
        rw [hsn] at this
        cases this
      rw [hnil]
      simp
    · apply filter_length_le_one k
      intro i x hx hpx
      simp only [Bool.and_eq_true, Bool.not_eq_true'] at hpx
      have := inv2 i x hx hpx.1 hpx.2
      rw [hsn] at this
      exact (Option.some.inj this).symm
  · intro id sr hsr hne
    rcases hq : sr.stopped with _ | _
    · rcases hq2 : sr.finished with _ | _
      · exact absurd (inv2 id sr hsr hq hq2) hne
      · right
        rfl
    · left
      rfl
  · intro now hsome
    rcases hq : s.sourceNode with _ | id
    · rw [hq] at hsome
      simp at hsome
    · rcases hp : s.isPlaying with _ | _
      · rw [runEffect_not_playing now s hp]
      · by_cases hfin : s.segments.length ≤ s.currentSegmentIndex
        · rw [runEffect_finished_eq now s hp hfin]
        · rw [runEffect_busy now s id hp (by omega) hq]

/-- Witness: the C1 invariant evaluated at the mount state of a one-chunk
narration. -/
theorem playback_single_source_c1_witness :
    activeSourceCount (initState 1) ≤ 1 ∧
    (∀ (id : Nat) (sr : SourceRec), (initState 1).sources[id]? = some sr →
        sr.stopped = true → sr.attached = false) ∧
    (∀ (id : Nat) (sr : SourceRec), (initState 1).sources[id]? = some sr →
        (initState 1).sourceNode ≠ some id → sr.stopped = true ∨ sr.finished = true) ∧
    (∀ now : Rat, (initState 1).sourceNode.isSome = true →
        (runEffect now (initState 1)).sources = (initState 1).sources) :=
  playback_single_source_c1 1 (initState 1) Reachable.init

theorem loadSegment_log (index : Nat) (s : TCState) :
    ∃ extra, (loadSegment index s).log = s.log ++ extra := by
  unfold loadSegment
  split
  · exact ⟨[], by simp⟩
  split
  · exact ⟨[], by simp⟩
  split
  · exact ⟨[.fetch index], rfl⟩
  · exact ⟨[], by simp⟩

theorem loadSegment_out_of_range (index : Nat) (s : TCState)
    (h : s.segments.length ≤ index) : loadSegment index s = s := by
  unfold loadSegment
  rw [if_pos h]

/-- C2: pausing while segment `i` plays stores the elapsed offset
(`ctx.currentTime - startTimeRef`) without touching `currentSegmentIndex`,
and the next transition into playing — resume followed by the controller
effect — starts a source for the same segment `i` at exactly that stored
offset (never offset 0 unless the stored offset is 0, and never segment
`i + 1`); the new source is created for segment `i`, whose buffer the
effect wires into the source. -/
theorem pause_resume_same_segment_c2 (s : TCState) (id b : Nat) (sg : AudioSegment)
    (now now2 now3 : Rat)
    (hplay : s.isPlaying = true) (href : s.sourceNode = some id)
    (hid : id < s.sources.length)
    (hsg : s.segments[s.currentSegmentIndex]? = some sg)
    (hst : sg.status = .ready) (hbuf : sg.buffer = some b) :
    (toggleAudio now s).pauseTime = now - s.startTime ∧
    (toggleAudio now s).currentSegmentIndex = s.currentSegmentIndex ∧
    (toggleAudio now s).isPlaying = false ∧
    ((runEffect now3 (toggleAudio now2 (toggleAudio now s))).log.drop
        (toggleAudio now2 (toggleAudio now s)).log.length).head? =
      some (.start (toggleAudio now2 (toggleAudio now s)).sources.length
        s.currentSegmentIndex (now - s.startTime)) ∧
    (runEffect now3 (toggleAudio now2 (toggleAudio now s))).currentSegmentIndex =
      s.currentSegmentIndex ∧
    (runEffect now3 (toggleAudio now2 (toggleAudio now s))).sources[
        (toggleAudio now2 (toggleAudio now s)).sources.length]? =
      some ⟨s.currentSegmentIndex, true, false, false⟩ := by
  obtain ⟨sr, hsr⟩ : ∃ sr, s.sources[id]? = some sr :=
    ⟨_, List.getElem?_eq_getElem hid⟩
  have h1 := toggleAudio_pause_eq now s id sr hplay href hsr
  have h2 : toggleAudio now2 (toggleAudio now s) =
      { toggleAudio now s with isPlaying := true } :=
    toggleAudio_resume_eq now2 _ (by rw [h1])
  have h2play : (toggleAudio now2 (toggleAudio now s)).isPlaying = true := by
    rw [h2]
  have h2node : (toggleAudio now2 (toggleAudio now s)).sourceNode = none := by
    rw [h2, h1]
  have h2idx : (toggleAudio now2 (toggleAudio now s)).currentSegmentIndex =
      s.currentSegmentIndex := by
    rw [h2, h1]
  have h2segs : (toggleAudio now2 (toggleAudio now s)).segments = s.segments := by
    rw [h2, h1]
  have h2pt : (toggleAudio now2 (toggleAudio now s)).pauseTime = now - s.startTime := by
    rw [h2, h1]
  have h3 := runEffect_play_eq now3 (toggleAudio now2 (toggleAudio now s)) b sg
    h2play h2node (by rw [h2segs, h2idx]; exact hsg) hst hbuf
  refine ⟨by rw [h1], by rw [h1], by rw [h1], ?_, ?_, ?_⟩
  · rw [h3]
    obtain ⟨extra, hextra⟩ := loadSegment_log _ _
    rw [hextra]
    dsimp only
    rw [List.append_assoc, List.drop_left]
    rw [h2idx, h2pt]
    rfl
  · rw [h3]
    rw [loadSegment_currentSegmentIndex]
    exact h2idx
  · rw [h3]
    rw [loadSegment_sources]
    dsimp only
    rw [h2idx]
    exact List.getElem?_concat_length _ _

/-- A paused-while-ready view state used to evaluate C2 concretely. -/
def pausedReadyState : TCState :=
  { isPlaying := true, currentSegmentIndex := 0,
    segments := [{ buffer := some 7, status := .ready }],
    sourceNode := some 0, pauseTime := 0, startTime := 1,
    isAudioUnavailable := false, isBuffering := false,
    sources := [⟨0, true, false, false⟩], log := [] }

/-- Witness: pause at `ctx.currentTime = 5/2` (elapsed offset `3/2`), then
resume; the effect restarts segment 0 at offset `3/2`. -/
theorem pause_resume_same_segment_c2_witness :
    (toggleAudio (5/2) pausedReadyState).pauseTime = 5/2 - pausedReadyState.startTime ∧
    (toggleAudio (5/2) pausedReadyState).currentSegmentIndex =
      pausedReadyState.currentSegmentIndex ∧
    (toggleAudio (5/2) pausedReadyState).isPlaying = false ∧
    ((runEffect 4 (toggleAudio 3 (toggleAudio (5/2) pausedReadyState))).log.drop
        (toggleAudio 3 (toggleAudio (5/2) pausedReadyState)).log.length).head? =
      some (.start (toggleAudio 3 (toggleAudio (5/2) pausedReadyState)).sources.length
        pausedReadyState.currentSegmentIndex (5/2 - pausedReadyState.startTime)) ∧
    (runEffect 4 (toggleAudio 3 (toggleAudio (5/2) pausedReadyState))).currentSegmentIndex =
      pausedReadyState.currentSegmentIndex ∧
    (runEffect 4 (toggleAudio 3 (toggleAudio (5/2) pausedReadyState))).sources[
        (toggleAudio 3 (toggleAudio (5/2) pausedReadyState)).sources.length]? =
      some ⟨pausedReadyState.currentSegmentIndex, true, false, false⟩ :=
  pause_resume_same_segment_c2 pausedReadyState 0 7 { buffer := some 7, status := .ready }
    (5/2) 3 4 rfl rfl (by decide) rfl rfl rfl

/-- A reachable state with segment 0 physically playing: mount a one-chunk
view, let the fetch resolve with buffer 5, press play, run the controller
effect at `ctx.currentTime = 2`. -/
def playingViewState : TCState :=
  runEffect 2 (toggleAudio 1 (resolveFetch 0 (some 5) (initState 1)))

theorem playingViewState_reachable : Reachable 1 playingViewState :=
  Reachable.step
    (Reachable.step
      (Reachable.step Reachable.init
        (Step.resolved 0 (some 5) (initState 1) ⟨none, .loading⟩ (by decide) rfl))
      (Step.toggle 1 _))
    (Step.effect 2 _)

/-- C3: a user-initiated pause (`toggleAudio` while playing) and the
teardown/stop handler (`stopAudio`) both emit `detach` strictly before
`stop` in the engine log, and neither ever advances `currentSegmentIndex`
(pause keeps it, stop resets it to 0); conversely, the only event that can
advance the index on a source's physical end is the `onended` callback of a
source that is still attached and was never stopped — i.e. one that ran to
natural completion. -/
theorem detach_before_stop_c3 (n : Nat) (s : TCState) (h : Reachable n s) :
    (∀ (now : Rat) (id : Nat), s.isPlaying = true → s.sourceNode = some id →
        (toggleAudio now s).log = s.log ++ [.detach id, .stop id] ∧
        (toggleAudio now s).currentSegmentIndex = s.currentSegmentIndex) ∧
    (∀ id : Nat, s.sourceNode = some id →
        (stopAudio s).log = s.log ++ [.detach id, .stop id] ∧
        (stopAudio s).currentSegmentIndex = 0) ∧
    (∀ (id : Nat) (sr : SourceRec), s.sources[id]? = some sr → sr.finished = false →
        (onEnded id s).currentSegmentIndex ≠ s.currentSegmentIndex →
        sr.attached = true ∧ sr.stopped = false) := by
  obtain ⟨inv1, inv2, inv3⟩ := sourceInv_reachable h
  refine ⟨?_, ?_, ?_⟩
  · intro now id hplay href
    have hid := inv3 id href
    obtain ⟨sr, hsr⟩ : ∃ sr, s.sources[id]? = some sr :=
      ⟨_, List.getElem?_eq_getElem hid⟩
    rw [toggleAudio_pause_eq now s id sr hplay href hsr]
    exact ⟨rfl, rfl⟩
  · intro id href
    have hid := inv3 id href
    obtain ⟨sr, hsr⟩ : ∃ sr, s.sources[id]? = some sr :=
      ⟨_, List.getElem?_eq_getElem hid⟩
    rw [stopAudio_some_eq s id sr href hsr]
    exact ⟨rfl, rfl⟩
  · intro id sr hsr hfin hneq
    rcases ha : sr.attached with _ | _
    · exfalso
      apply hneq
      rw [onEnded_detached_eq id s sr hsr ha]
    · refine ⟨rfl, ?_⟩
      rcases hq : sr.stopped with _ | _
      · rfl
      · have := inv1 id sr hsr hq
        rw [ha] at this
        cases this

/-- Witness: C3 evaluated on the concrete playing state. -/
theorem detach_before_stop_c3_witness :
    ((toggleAudio 3 playingViewState).log =
        playingViewState.log ++ [.detach 0, .stop 0] ∧
     (toggleAudio 3 playingViewState).currentSegmentIndex =
        playingViewState.currentSegmentIndex) ∧
    ((stopAudio playingViewState).log =
        playingViewState.log ++ [.detach 0, .stop 0] ∧
     (stopAudio playingViewState).currentSegmentIndex = 0) ∧
    ((⟨0, true, false, false⟩ : SourceRec).attached = true ∧
     (⟨0, true, false, false⟩ : SourceRec).stopped = false) :=
  ⟨(detach_before_stop_c3 1 playingViewState playingViewState_reachable).1 3 0
      (by decide) (by decide),
   (detach_before_stop_c3 1 playingViewState playingViewState_reachable).2.1 0
      (by decide),
   (detach_before_stop_c3 1 playingViewState playingViewState_reachable).2.2 0
      ⟨0, true, false, false⟩ (by decide) rfl (by decide)⟩

@[simp] theorem detachSource_isAudioUnavailable (id : Nat) (s : TCState) :
    (detachSource id s).isAudioUnavailable = s.isAudioUnavailable := by
  unfold detachSource
  split <;> rfl

@[simp] theorem stopSource_isAudioUnavailable (id : Nat) (s : TCState) :
    (stopSource id s).isAudioUnavailable = s.isAudioUnavailable := by
  unfold stopSource
  split <;> rfl

@[simp] theorem runEffect_isAudioUnavailable (now : Rat) (s : TCState) :
    (runEffect now s).isAudioUnavailable = s.isAudioUnavailable := by
  unfold runEffect
  repeat first | rfl | rw [loadSegment_isAudioUnavailable] | split

@[simp] theorem toggleAudio_isAudioUnavailable (now : Rat) (s : TCState) :
    (toggleAudio now s).isAudioUnavailable = s.isAudioUnavailable := by
  unfold toggleAudio
  repeat first | rfl | simp only [detachSource_isAudioUnavailable,
    stopSource_isAudioUnavailable] | split

@[simp] theorem stopAudio_isAudioUnavailable (s : TCState) :
    (stopAudio s).isAudioUnavailable = s.isAudioUnavailable := by
  unfold stopAudio
  repeat first | rfl | simp only [detachSource_isAudioUnavailable,
    stopSource_isAudioUnavailable] | split

@[simp] theorem onEnded_isAudioUnavailable (id : Nat) (s : TCState) :
    (onEnded id s).isAudioUnavailable = s.isAudioUnavailable := by
  unfold onEnded
  repeat first | rfl | split

/-- C4: per-chunk load failures are contained and skipped.  When the
controller reaches an `error` segment while playing it advances to the next
index, stays in playing state, and touches neither the segment list nor the
audio-unavailable flag; running past the end finishes (resets to a paused
initial position) without surfacing any error.  The persistent
audio-unavailable flag is set exactly by a fetch for index 0 resolving with
no buffer (or by mounting with an empty segment list); a failure at any
index greater than 0 and every other event leave the flag unchanged. -/
theorem error_skip_and_unavailable_c4 :
    (∀ (now : Rat) (s : TCState) (sg : AudioSegment),
        s.isPlaying = true → s.sourceNode = none →
        s.segments[s.currentSegmentIndex]? = some sg → sg.status = .error →
        (runEffect now s).currentSegmentIndex = s.currentSegmentIndex + 1 ∧
        (runEffect now s).isPlaying = true ∧
        (runEffect now s).isAudioUnavailable = s.isAudioUnavailable ∧
        (runEffect now s).segments = s.segments) ∧
    (∀ (now : Rat) (s : TCState), s.isPlaying = true →
        s.segments.length ≤ s.currentSegmentIndex →
        (runEffect now s).isPlaying = false ∧
        (runEffect now s).currentSegmentIndex = 0 ∧
        (runEffect now s).isAudioUnavailable = s.isAudioUnavailable) ∧
    (∀ (s : TCState) (sg : AudioSegment), s.segments[0]? = some sg →
        (resolveFetch 0 none s).isAudioUnavailable = true) ∧
    (∀ (s : TCState) (index : Nat) (sg : AudioSegment), s.segments[index]? = some sg →
        index ≠ 0 → (resolveFetch index none s).isAudioUnavailable = s.isAudioUnavailable) ∧
    (∀ (s : TCState) (index b : Nat),
        (resolveFetch index (some b) s).isAudioUnavailable = s.isAudioUnavailable) ∧
    (∀ (now : Rat) (s : TCState) (id index : Nat),
        (runEffect now s).isAudioUnavailable = s.isAudioUnavailable ∧
        (toggleAudio now s).isAudioUnavailable = s.isAudioUnavailable ∧
        (stopAudio s).isAudioUnavailable = s.isAudioUnavailable ∧
        (onEnded id s).isAudioUnavailable = s.isAudioUnavailable ∧
        (loadSegment index s).isAudioUnavailable = s.isAudioUnavailable) ∧
    (∀ n : Nat, (initState n).isAudioUnavailable = decide (n = 0)) := by
  refine ⟨?_, ?_, ?_, ?_, ?_, ?_, ?_⟩
  · intro now s sg hplay href hsg hst
    rw [runEffect_error_eq now s sg hplay href hsg hst]
    exact ⟨rfl, hplay, rfl, rfl⟩
  · intro now s hplay hfin
    rw [runEffect_finished_eq now s hplay hfin]
    exact ⟨rfl, rfl, rfl⟩
  · intro s sg hsg
    unfold resolveFetch
    rw [hsg]
    dsimp only
    rw [if_pos rfl]
  · intro s index sg hsg hne
    unfold resolveFetch
    rw [hsg]
    dsimp only
    rw [if_neg hne]
  · intro s index b
    unfold resolveFetch
    split <;> rfl
  · intro now s id index
    exact ⟨runEffect_isAudioUnavailable now s, toggleAudio_isAudioUnavailable now s,
      stopAudio_isAudioUnavailable s, onEnded_isAudioUnavailable id s,
      loadSegment_isAudioUnavailable index s⟩
  · intro n
    unfold initState
    by_cases hn : n = 0
    · rw [if_pos hn]
      simp [hn]
    · rw [if_neg hn]
      rw [loadSegment_isAudioUnavailable]
      simp [hn]

/-- A playing state whose current segment is in `error` status. -/
def errorSegmentState : TCState :=
  { isPlaying := true, currentSegmentIndex := 0,
    segments := [{ buffer := none, status := .error }, { buffer := none, status := .loading }],
    sourceNode := none, pauseTime := 0, startTime := 0,
    isAudioUnavailable := false, isBuffering := false, sources := [], log := [] }

/-- Witness: C4's branches evaluated at concrete states — an error segment
is skipped, running past the end finishes, a failed fetch for index 0 sets
the flag while a failed fetch for index 1 does not. -/
theorem error_skip_and_unavailable_c4_witness :
    ((runEffect 0 errorSegmentState).currentSegmentIndex =
        errorSegmentState.currentSegmentIndex + 1 ∧
     (runEffect 0 errorSegmentState).isPlaying = true ∧
     (runEffect 0 errorSegmentState).isAudioUnavailable =
        errorSegmentState.isAudioUnavailable ∧
     (runEffect 0 errorSegmentState).segments = errorSegmentState.segments) ∧
    ((runEffect 0 { errorSegmentState with currentSegmentIndex := 2 }).isPlaying = false ∧
     (runEffect 0 { errorSegmentState with currentSegmentIndex := 2 }).currentSegmentIndex = 0 ∧
     (runEffect 0 { errorSegmentState with currentSegmentIndex := 2 }).isAudioUnavailable =
        ({ errorSegmentState with currentSegmentIndex := 2 } : TCState).isAudioUnavailable) ∧
    ((resolveFetch 0 none (initState 2)).isAudioUnavailable = true) ∧
    ((resolveFetch 1 none errorSegmentState).isAudioUnavailable =
        errorSegmentState.isAudioUnavailable) ∧
    ((resolveFetch 1 (some 9) errorSegmentState).isAudioUnavailable =
        errorSegmentState.isAudioUnavailable) ∧
    ((runEffect 0 errorSegmentState).isAudioUnavailable =
        errorSegmentState.isAudioUnavailable ∧
     (toggleAudio 0 errorSegmentState).isAudioUnavailable =
        errorSegmentState.isAudioUnavailable ∧
     (stopAudio errorSegmentState).isAudioUnavailable =
        errorSegmentState.isAudioUnavailable ∧
     (onEnded 0 errorSegmentState).isAudioUnavailable =
        errorSegmentState.isAudioUnavailable ∧
     (loadSegment 1 errorSegmentState).isAudioUnavailable =
        errorSegmentState.isAudioUnavailable) ∧
    ((initState 0).isAudioUnavailable = decide ((0 : Nat) = 0)) :=
  ⟨error_skip_and_unavailable_c4.1 0 errorSegmentState
      { buffer := none, status := .error } rfl rfl (by decide) rfl,
   error_skip_and_unavailable_c4.2.1 0 _ rfl (by decide),
   error_skip_and_unavailable_c4.2.2.1 (initState 2)
      { buffer := none, status := .loading } (by decide),
   error_skip_and_unavailable_c4.2.2.2.1 errorSegmentState 1
      { buffer := none, status := .loading } (by decide) (by decide),
   error_skip_and_unavailable_c4.2.2.2.2.1 errorSegmentState 1 9,
   error_skip_and_unavailable_c4.2.2.2.2.2.1 0 errorSegmentState 0 1,
   error_skip_and_unavailable_c4.2.2.2.2.2.2 0⟩

/-- C8: upon entering the playing state for segment `i` the controller
issues — in the same synchronous effect run, before segment `i` can end —
exactly one prefetch, namely for segment `i + 1`, and only when that
segment exists and is still `pending` (marking it `loading`); when segment
`i + 1` is absent or already `loading`/`ready`/`error`, no fetch at all is
issued and the segment list is untouched.  `loadSegment` never fetches a
non-`pending` segment. -/
theorem prefetch_ahead_c8 :
    (∀ (now : Rat) (s : TCState) (b : Nat) (sg sg1 : AudioSegment),
        s.isPlaying = true → s.sourceNode = none →
        s.segments[s.currentSegmentIndex]? = some sg →
        sg.status = .ready → sg.buffer = some b →
        s.segments[s.currentSegmentIndex + 1]? = some sg1 →
        ((sg1.status = .pending →
            (runEffect now s).log = s.log ++
              [.start s.sources.length s.currentSegmentIndex s.pauseTime,
               .fetch (s.currentSegmentIndex + 1)] ∧
            (runEffect now s).segments[s.currentSegmentIndex + 1]? =
              some { sg1 with status := .loading }) ∧
         (sg1.status ≠ .pending →
            (runEffect now s).log = s.log ++
              [.start s.sources.length s.currentSegmentIndex s.pauseTime] ∧
            (runEffect now s).segments = s.segments))) ∧
    (∀ (now : Rat) (s : TCState) (b : Nat) (sg : AudioSegment),
        s.isPlaying = true → s.sourceNode = none →
        s.segments[s.currentSegmentIndex]? = some sg →
        sg.status = .ready → sg.buffer = some b →
        s.segments[s.currentSegmentIndex + 1]? = none →
        (runEffect now s).log = s.log ++
          [.start s.sources.length s.currentSegmentIndex s.pauseTime] ∧
        (runEffect now s).segments = s.segments) ∧
    (∀ (index : Nat) (s : TCState) (sg : AudioSegment),
        s.segments[index]? = some sg → sg.status ≠ .pending →
        loadSegment index s = s) := by
  refine ⟨?_, ?_, ?_⟩
  · intro now s b sg sg1 hplay href hsg hst hbuf hsg1
    have h3 := runEffect_play_eq now s b sg hplay href hsg hst hbuf
    have hlt1 : s.currentSegmentIndex + 1 < s.segments.length :=
      (List.getElem?_eq_some.mp hsg1).1
    constructor
    · intro hpend
      rw [h3, loadSegment_pending _ _ sg1 (by exact hsg1) hpend]
      constructor
      · dsimp only
        simp [List.append_assoc]
      · dsimp only
        exact List.getElem?_set_eq_of_lt _ hlt1
    · intro hnp
      rw [h3, loadSegment_not_pending _ _ sg1 (by exact hsg1) hnp]
      exact ⟨rfl, rfl⟩
  · intro now s b sg hplay href hsg hst hbuf hnone
    have hge : s.segments.length ≤ s.currentSegmentIndex + 1 :=
      List.getElem?_eq_none_iff.mp hnone
    have h3 := runEffect_play_eq now s b sg hplay href hsg hst hbuf
    rw [h3, loadSegment_out_of_range _ _ (by exact hge)]
    exact ⟨rfl, rfl⟩
  · intro index s sg hsg hnp
    exact loadSegment_not_pending index s sg hsg hnp

/-- A playing-entry state whose next segment is still pending. -/
def prefetchState : TCState :=
  { isPlaying := true, currentSegmentIndex := 0,
    segments := [{ buffer := some 5, status := .ready }, { buffer := none, status := .pending }],
    sourceNode := none, pauseTime := 0, startTime := 0,
    isAudioUnavailable := false, isBuffering := false, sources := [], log := [] }

/-- A playing-entry state with no next segment. -/
def lastSegmentState : TCState :=
  { isPlaying := true, currentSegmentIndex := 0,
    segments := [{ buffer := some 5, status := .ready }],
    sourceNode := none, pauseTime := 0, startTime := 0,
    isAudioUnavailable := false, isBuffering := false, sources := [], log := [] }

/-- Witness: entering play on `prefetchState` starts segment 0 and fetches
segment 1; on `lastSegmentState` it starts segment 0 and fetches nothing;
`loadSegment` on an `error` segment does nothing. -/
theorem prefetch_ahead_c8_witness :
    (((AudioSegment.mk none .pending).status = .pending →
        (runEffect 0 prefetchState).log = prefetchState.log ++
          [.start prefetchState.sources.length prefetchState.currentSegmentIndex
            prefetchState.pauseTime,
           .fetch (prefetchState.currentSegmentIndex + 1)] ∧
        (runEffect 0 prefetchState).segments[prefetchState.currentSegmentIndex + 1]? =
          some { AudioSegment.mk none .pending with status := .loading }) ∧
     ((AudioSegment.mk none .pending).status ≠ .pending →
        (runEffect 0 prefetchState).log = prefetchState.log ++
          [.start prefetchState.sources.length prefetchState.currentSegmentIndex
            prefetchState.pauseTime] ∧
        (runEffect 0 prefetchState).segments = prefetchState.segments)) ∧
    ((runEffect 0 lastSegmentState).log = lastSegmentState.log ++
        [.start lastSegmentState.sources.length lastSegmentState.currentSegmentIndex
          lastSegmentState.pauseTime] ∧
     (runEffect 0 lastSegmentState).segments = lastSegmentState.segments) ∧
    (loadSegment 0 errorSegmentState = errorSegmentState) :=
  ⟨prefetch_ahead_c8.1 0 prefetchState 5 { buffer := some 5, status := .ready }
      { buffer := none, status := .pending } rfl rfl (by decide) rfl rfl (by decide),
   prefetch_ahead_c8.2.1 0 lastSegmentState 5 { buffer := some 5, status := .ready }
      rfl rfl (by decide) rfl rfl (by decide),
   prefetch_ahead_c8.2.2 0 errorSegmentState { buffer := none, status := .error }
      (by decide) (by decide)⟩

/-! ## Segment Splitter — `splitTextForTTS`

`splitTextForTTS` is imported by `src/components/TourCard.tsx` (line 4) from
the services module and called at line 50, but its definition is not among
the source files.

Modelled from the spec: the Segment Splitter breaks the narration text into
an ordered sequence of short chunks suitable for independent synthesis
(sentence-sized pieces, split after `.`, `!`, `?`, trimmed of surrounding
whitespace, whitespace-only pieces dropped); it must not drop or reorder
words, concatenating the chunks in order must reconstruct the text modulo
inserted/removed pure whitespace at chunk boundaries, and empty or
whitespace-only input yields the empty sequence.  Text is a `List Char`. -/

def isWs (c : Char) : Bool := c.isWhitespace

def isSentenceEnd (c : Char) : Bool := c = '.' || c = '!' || c = '?'

/-- Split into sentence pieces: a piece ends at each sentence terminator
(kept in the piece); `acc` holds the current piece reversed. -/
def sentencesAux : List Char → List Char → List (List Char)
  | [], acc => if acc.isEmpty then [] else [acc.reverse]
  | c :: cs, acc =>
    if isSentenceEnd c then (c :: acc).reverse :: sentencesAux cs []
    else sentencesAux cs (c :: acc)

/-- Strip leading and trailing whitespace from a piece. -/
def trimChunk (l : List Char) : List Char :=
  ((l.dropWhile isWs).reverse.dropWhile isWs).reverse

/-- The Segment Splitter: sentence pieces, trimmed, whitespace-only pieces
dropped. -/
def splitTextForTTS (text : List Char) : List (List Char) :=
  ((sentencesAux text []).map trimChunk).filter (fun c => !c.isEmpty)

/-- Reassembly predicate `Reassembles chunks text`: `text` is exactly the chunks in order,
verbatim and non-empty, interleaved with (possibly empty) pure-whitespace
fillers — i.e. concatenation reconstructs the text modulo whitespace at
chunk boundaries, with no word dropped or reordered. -/
def Reassembles : List (List Char) → List Char → Prop
  | [], text => ∀ c ∈ text, isWs c = true
  | chunk :: rest, text => chunk ≠ [] ∧
      ∃ w tail, (∀ c ∈ w, isWs c = true) ∧ text = w ++ chunk ++ tail ∧
        Reassembles rest tail

theorem reassembles_ws_prepend {w s : List Char} {L : List (List Char)}
    (hw : ∀ c ∈ w, isWs c = true) (h : Reassembles L s) :
    Reassembles L (w ++ s) := by
  cases L with
  | nil =>
    intro c hc
    rcases List.mem_append.mp hc with hc | hc
    · exact hw c hc
    · exact h c hc
  | cons chunk rest =>
    obtain ⟨hch, w2, tail, hw2, hs, hr⟩ := h
    refine ⟨hch, w ++ w2, tail, ?_, ?_, hr⟩
    · intro c hc
      rcases List.mem_append.mp hc with hc | hc
      · exact hw c hc
      · exact hw2 c hc
    · rw [hs]
      simp [List.append_assoc]

theorem sentencesAux_flatten : ∀ (l acc : List Char),
    (sentencesAux l acc).flatten = acc.reverse ++ l := by
  intro l
  induction l with
  | nil =>
    intro acc
    unfold sentencesAux
    by_cases hacc : acc.isEmpty
    · rw [if_pos hacc]
      have : acc = [] := by
        cases acc
        · rfl
        · simp at hacc
      simp [this]
    · rw [if_neg hacc]
      simp
  | cons c cs ih =>
    intro acc
    unfold sentencesAux
    by_cases hend : isSentenceEnd c = true
    · rw [if_pos hend]
      simp only [List.flatten_cons, ih []]
      simp
    · rw [if_neg hend]
      rw [ih (c :: acc)]
      simp

theorem trimChunk_decomp (l : List Char) :
    ∃ w1 w2, (∀ c ∈ w1, isWs c = true) ∧ (∀ c ∈ w2, isWs c = true) ∧
      l = w1 ++ trimChunk l ++ w2 := by
  refine ⟨l.takeWhile isWs, ((l.dropWhile isWs).reverse.takeWhile isWs).reverse,
    ?_, ?_, ?_⟩
  · intro c hc
    exact List.mem_takeWhile_imp hc
  · intro c hc
    exact List.mem_takeWhile_imp (List.mem_reverse.mp hc)
  · unfold trimChunk
    conv_lhs => rw [← List.takeWhile_append_dropWhile (p := isWs) (l := l)]
    rw [List.append_assoc]
    congr 1
    conv_lhs => rw [← List.reverse_reverse (l.dropWhile isWs),
      ← List.takeWhile_append_dropWhile (p := isWs) (l := (l.dropWhile isWs).reverse)]
    rw [List.reverse_append]

theorem trimChunk_of_ws {l : List Char} (h : ∀ c ∈ l, isWs c = true) :
    trimChunk l = [] := by
  unfold trimChunk
  have h1 : l.dropWhile isWs = [] := List.dropWhile_eq_nil_iff.mpr h
  rw [h1]
  rfl

theorem sentencesAux_ws : ∀ (l acc : List Char),
    (∀ c ∈ l, isWs c = true) → (∀ c ∈ acc, isWs c = true) →
    ∀ piece ∈ sentencesAux l acc, ∀ c ∈ piece, isWs c = true := by
  intro l
  induction l with
  | nil =>
    intro acc _ hacc piece hpiece c hc
    unfold sentencesAux at hpiece
    by_cases ha : acc.isEmpty
    · rw [if_pos ha] at hpiece
      simp at hpiece
    · rw [if_neg ha] at hpiece
      simp only [List.mem_singleton] at hpiece
      subst hpiece
      exact hacc c (List.mem_reverse.mp hc)
  | cons a cs ih =>
    intro acc hl hacc piece hpiece c hc
    unfold sentencesAux at hpiece
    by_cases hend : isSentenceEnd a = true
    · rw [if_pos hend] at hpiece
      rcases List.mem_cons.mp hpiece with hpiece | hpiece
      · subst hpiece
        rcases List.mem_cons.mp (List.mem_reverse.mp hc) with hc | hc
        · subst hc
          exact hl _ (List.mem_cons_self _ _)
        · exact hacc c hc
      · exact ih [] (fun x hx => hl x (List.mem_cons_of_mem a hx)) (by simp)
          piece hpiece c hc
    · rw [if_neg hend] at hpiece
      refine ih (a :: acc) (fun x hx => hl x (List.mem_cons_of_mem a hx)) ?_
        piece hpiece c hc
      intro x hx
      rcases List.mem_cons.mp hx with hx | hx
      · subst hx
        exact hl _ (List.mem_cons_self _ _)
      · exact hacc x hx

theorem reassembles_pieces (pieces : List (List Char)) :
    Reassembles ((pieces.map trimChunk).filter (fun c => !c.isEmpty))
      pieces.flatten := by
  induction pieces with
  | nil =>
    intro c hc
    simp at hc
  | cons p ps ih =>
    obtain ⟨w1, w2, hw1, hw2, hdecomp⟩ := trimChunk_decomp p
    rw [List.flatten_cons]
    by_cases hemp : trimChunk p = []
    · have hpws : ∀ c ∈ p, isWs c = true := by
        intro c hc
        rw [hdecomp, hemp] at hc
        simp only [List.append_nil, List.nil_append, List.append_assoc] at hc
        rcases List.mem_append.mp hc with hc | hc
        · exact hw1 c hc
        · exact hw2 c hc
      rw [List.map_cons, List.filter_cons_of_neg (by simp [hemp])]
      exact reassembles_ws_prepend hpws ih
    · rw [List.map_cons, List.filter_cons_of_pos (by simp [hemp])]
      have he : p ++ ps.flatten = w1 ++ trimChunk p ++ (w2 ++ ps.flatten) := by
        conv_lhs => rw [hdecomp]
        simp [List.append_assoc]
      rw [he]
      exact ⟨hemp, w1, w2 ++ ps.flatten, hw1, rfl, reassembles_ws_prepend hw2 ih⟩

/-- C5 (spec-modelled): the Segment Splitter reassembles every text — the
chunks, in order and verbatim, interleaved only with pure whitespace at
chunk boundaries, so no word is dropped or reordered; any text containing a
non-whitespace character yields a non-empty chunk sequence, and empty or
whitespace-only text yields the empty sequence. -/
theorem splitTextForTTS_reconstructs_c5 (text : List Char) :
    Reassembles (splitTextForTTS text) text ∧
    ((∃ c ∈ text, isWs c = false) → splitTextForTTS text ≠ []) ∧
    ((∀ c ∈ text, isWs c = true) → splitTextForTTS text = []) := by
  have hre : Reassembles (splitTextForTTS text) text := by
    have h := reassembles_pieces (sentencesAux text [])
    rw [sentencesAux_flatten text []] at h
    simpa using h
  refine ⟨hre, ?_, ?_⟩
  · rintro ⟨c, hc, hcw⟩ hnil
    rw [hnil] at hre
    rw [hre c hc] at hcw
    cases hcw
  · intro hws
    unfold splitTextForTTS
    rw [List.filter_eq_nil_iff]
    intro x hx
    obtain ⟨piece, hpiece, hxe⟩ := List.mem_map.mp hx
    have hpws := sentencesAux_ws text [] hws (by simp) piece hpiece
    have htrim : trimChunk piece = [] := trimChunk_of_ws hpws
    rw [← hxe, htrim]
    simp

/-- Sanity evaluation of the splitter on a concrete two-sentence text. -/
theorem splitTextForTTS_example :
    splitTextForTTS ['H', 'i', '.', ' ', 'Y', 'o', '!', ' '] =
      [['H', 'i', '.'], ['Y', 'o', '!']] := by decide

/-- Witness: C5 applied to the concrete text `"Hi. Yo!"`. -/
theorem splitTextForTTS_reconstructs_c5_witness :
    Reassembles (splitTextForTTS ['H', 'i', '.', ' ', 'Y', 'o', '!'])
      ['H', 'i', '.', ' ', 'Y', 'o', '!'] ∧
    splitTextForTTS ['H', 'i', '.', ' ', 'Y', 'o', '!'] ≠ [] :=
  ⟨(splitTextForTTS_reconstructs_c5 ['H', 'i', '.', ' ', 'Y', 'o', '!']).1,
   (splitTextForTTS_reconstructs_c5 ['H', 'i', '.', ' ', 'Y', 'o', '!']).2.1
     ⟨'H', by decide, by decide⟩⟩

end SnapTour
